import Mathlib

/-!
Shallow embedding of the split-conformal calibration core of the PUNCC
tutorial notebooks (part1_regression_tuto.ipynb, part2_classification_tuto.ipynb).

The notebooks compute, inline:
  - nonconformity scores r_i = |predictions[i] - targets[i]| (formula given in
    the notebook's markdown; the code cell is a fill-in-the-blank TODO),
  - q = np.quantile(nonconf_scores, (1 - alpha) * (n + 1) / n, method="inverted_cdf"),
  - prediction intervals (f(X) - delta, f(X) + delta).
Real numbers are modelled as rationals; NumPy's np.quantile raising ValueError
for levels outside [0, 1] or empty arrays is modelled as Option.
-/

/-- Ascending sort of the score array (the notebooks call nonconf_scores.sort();
np.quantile sorts internally). -/
def sortScores (a : List ℚ) : List ℚ :=
  List.insertionSort (· ≤ ·) a

/-- NumPy's np.quantile with method="inverted_cdf": the value of the first order
statistic whose cumulative empirical probability is at least q, i.e. the element
at 1-based position max(ceil(q * n), 1) of the sorted array. Returns none when
the array is empty or the level lies outside [0, 1], where NumPy raises a
ValueError. -/
def npQuantileInvCdf (a : List ℚ) (q : ℚ) : Option ℚ :=
  if a.isEmpty then none
  else if q < 0 ∨ 1 < q then none
  else (sortScores a)[max (⌈q * a.length⌉).toNat 1 - 1]?

/-- Nonconformity scores of the calibration set: r_i = |predictions[i] - targets[i]|
(the absolute-deviation score of the regression notebook's markdown). -/
def nonconf_scores (predictions targets : List ℚ) : List ℚ :=
  (predictions.zip targets).map (fun pt => |pt.1 - pt.2|)

/-- Errors of the calibration operation. InvalidInput is the spec's single eager
validation error; ValueError models the exception NumPy raises inside np.quantile
when the requested level is outside [0, 1]. -/
inductive CalibError where
  | InvalidInput
  | ValueError
deriving DecidableEq

/-- The quantile level the notebooks pass to np.quantile:
(1 - alpha) * (n + 1) / n, with no clipping. -/
def qLevel (alpha : ℚ) (n : ℕ) : ℚ := (1 - alpha) * (n + 1) / n

/-- Split-conformal calibration. Modelled from the spec: the eager input
validation (InvalidInput on mismatched lengths, an empty calibration set, or
alpha outside (0,1)) exists only in spec sections 4 and 7 — the notebooks have
no validation code. The score formula and the quantile call
np.quantile(scores, (1 - alpha) * (n + 1) / n, method="inverted_cdf") are taken
from the notebooks' own cells, which pass the level unclipped. -/
def calibrate (predictions targets : List ℚ) (alpha : ℚ) : Except CalibError ℚ :=
  if predictions.length ≠ targets.length then .error .InvalidInput
  else if predictions.length = 0 then .error .InvalidInput
  else if alpha ≤ 0 ∨ 1 ≤ alpha then .error .InvalidInput
  else
    match npQuantileInvCdf (nonconf_scores predictions targets)
        (qLevel alpha predictions.length) with
    | some m => .ok m
    | none => .error .ValueError

/-- Interval construction around a point prediction. Modelled from the spec:
the notebook cell leaves lower/upper as a fill-in-the-blank TODO; the formula
(f(X) - delta, f(X) + delta) is the notebook's markdown. -/
def build_interval (point_prediction margin : ℚ) : ℚ × ℚ :=
  (point_prediction - margin, point_prediction + margin)

/-- Batched interval construction, element-wise over a sequence of point
predictions. -/
def build_interval_batch (point_predictions : List ℚ) (margin : ℚ) : List (ℚ × ℚ) :=
  point_predictions.map (fun p => build_interval p margin)

/-- Number of scores less than or equal to v. -/
def countLe (a : List ℚ) (v : ℚ) : ℕ := a.countP (fun x => decide (x ≤ v))

/-- Fraction of scores less than or equal to v (the empirical CDF at v). -/
def fracLe (a : List ℚ) (v : ℚ) : ℚ := countLe a v / a.length

/-! Basic facts about the sort. -/

theorem sortScores_perm (a : List ℚ) : (sortScores a).Perm a :=
  List.perm_insertionSort _ a

theorem sortScores_sorted (a : List ℚ) : (sortScores a).Sorted (· ≤ ·) :=
  List.sorted_insertionSort _ a

theorem sortScores_length (a : List ℚ) : (sortScores a).length = a.length :=
  (sortScores_perm a).length_eq

theorem countLe_perm {a b : List ℚ} (h : a.Perm b) (v : ℚ) : countLe a v = countLe b v :=
  h.countP_eq _

/-- In a sorted list, at least j + 1 elements are ≤ the element at index j. -/
theorem le_countLe_get (s : List ℚ) (hs : s.Sorted (· ≤ ·)) (j : ℕ) (hj : j < s.length) :
    j + 1 ≤ countLe s (s.get ⟨j, hj⟩) := by
  have hall : ∀ x ∈ s.take (j + 1), (fun x => decide (x ≤ s.get ⟨j, hj⟩)) x = true := by
    intro x hx
    obtain ⟨i, hi, hxe⟩ := List.mem_iff_getElem.mp hx
    have hij : i ≤ j := by
      have := hi
      rw [List.length_take] at this
      omega
    have hilt : i < s.length := by omega
    have hrel : s.get ⟨i, hilt⟩ ≤ s.get ⟨j, hj⟩ :=
      hs.rel_get_of_le (by simpa [Fin.mk_le_mk] using hij)
    have hxi : x = s.get ⟨i, hilt⟩ := by
      rw [← hxe]
      simp [List.getElem_take, List.get_eq_getElem]
    simp only [decide_eq_true_eq]
    rw [hxi]
    exact hrel
  have h1 : (s.take (j + 1)).countP (fun x => decide (x ≤ s.get ⟨j, hj⟩)) =
      (s.take (j + 1)).length :=
    List.countP_eq_length.mpr hall
  have h2 : (s.take (j + 1)).length = j + 1 := by
    rw [List.length_take]
    omega
  calc j + 1 = (s.take (j + 1)).countP (fun x => decide (x ≤ s.get ⟨j, hj⟩)) := by
        rw [h1, h2]
    _ ≤ s.countP (fun x => decide (x ≤ s.get ⟨j, hj⟩)) :=
        (List.take_sublist _ _).countP_le _

/-- In a sorted list, at most j elements are ≤ any value below the element at
index j. -/
theorem countLe_le_of_lt (s : List ℚ) (hs : s.Sorted (· ≤ ·)) (j : ℕ) (hj : j < s.length)
    (w : ℚ) (hw : w < s.get ⟨j, hj⟩) : countLe s w ≤ j := by
  have hdrop : (s.drop j).countP (fun x => decide (x ≤ w)) = 0 := by
    rw [List.countP_eq_zero]
    intro x hx
    obtain ⟨i, hi, hxe⟩ := List.mem_iff_getElem.mp hx
    have hji : j + i < s.length := by
      have := hi
      rw [List.length_drop] at this
      omega
    have hrel : s.get ⟨j, hj⟩ ≤ s.get ⟨j + i, hji⟩ :=
      hs.rel_get_of_le (by simp [Fin.mk_le_mk])
    have hxi : x = s.get ⟨j + i, hji⟩ := by
      rw [← hxe]
      simp [List.getElem_drop, List.get_eq_getElem]
    simp only [decide_eq_true_eq]
    intro hxw
    rw [hxi] at hxw
    exact absurd (hw.trans_le (hrel.trans hxw)) (lt_irrefl w)
  have hsplit : countLe s w =
      (s.take j).countP (fun x => decide (x ≤ w)) +
        (s.drop j).countP (fun x => decide (x ≤ w)) := by
    rw [countLe]
    conv_lhs => rw [← List.take_append_drop j s]
    rw [List.countP_append]
  calc countLe s w = (s.take j).countP (fun x => decide (x ≤ w)) + 0 := by
        rw [hsplit, hdrop]
    _ = (s.take j).countP (fun x => decide (x ≤ w)) := Nat.add_zero _
    _ ≤ (s.take j).length := List.countP_le_length _
    _ ≤ j := by
        rw [List.length_take]
        omega

/-- Characterization of np.quantile with method="inverted_cdf" at a level in
(0, 1]: it returns the smallest value v such that the fraction of array entries
≤ v is at least the level, and that value is an entry of the array. -/
theorem npQuantileInvCdf_charac (a : List ℚ) (q : ℚ)
    (ha : a ≠ []) (hq0 : 0 < q) (hq1 : q ≤ 1) :
    ∃ v, npQuantileInvCdf a q = some v ∧ v ∈ a ∧ q ≤ fracLe a v ∧
      ∀ w, q ≤ fracLe a w → v ≤ w := by
  have hsp : (sortScores a).Perm a := sortScores_perm a
  have hss : (sortScores a).Sorted (· ≤ ·) := sortScores_sorted a
  have hlen : (sortScores a).length = a.length := sortScores_length a
  have hn0 : 0 < a.length := List.length_pos.mpr ha
  have hnq : (0 : ℚ) < a.length := by exact_mod_cast hn0
  have hcpos : 0 < ⌈q * (a.length : ℚ)⌉ := Int.ceil_pos.mpr (by positivity)
  have hiceil : ((⌈q * (a.length : ℚ)⌉.toNat : ℤ)) = ⌈q * (a.length : ℚ)⌉ :=
    Int.toNat_of_nonneg hcpos.le
  have hi1 : 1 ≤ ⌈q * (a.length : ℚ)⌉.toNat := by omega
  have hile : ⌈q * (a.length : ℚ)⌉.toNat ≤ a.length := by
    have hc : ⌈q * (a.length : ℚ)⌉ ≤ (a.length : ℤ) := by
      rw [Int.ceil_le]
      push_cast
      exact mul_le_of_le_one_left hnq.le hq1
    omega
  have hmax : max (⌈q * (a.length : ℚ)⌉.toNat) 1 = ⌈q * (a.length : ℚ)⌉.toNat :=
    max_eq_left hi1
  have hidx : ⌈q * (a.length : ℚ)⌉.toNat - 1 < (sortScores a).length := by
    rw [hlen]
    omega
  set i := ⌈q * (a.length : ℚ)⌉.toNat with hidef
  set v := (sortScores a).get ⟨i - 1, hidx⟩ with hvdef
  have hvmem : v ∈ a := hsp.mem_iff.mp (by rw [hvdef]; exact List.get_mem _ _ _)
  have hcountv : i ≤ countLe a v := by
    have h1 := le_countLe_get (sortScores a) hss (i - 1) hidx
    rw [← hvdef, countLe_perm hsp] at h1
    omega
  have hfracv : q ≤ fracLe a v := by
    rw [fracLe, le_div_iff₀ hnq]
    calc q * a.length ≤ (⌈q * (a.length : ℚ)⌉ : ℚ) := Int.le_ceil _
      _ = (i : ℚ) := by exact_mod_cast hiceil.symm
      _ ≤ (countLe a v : ℚ) := by exact_mod_cast hcountv
  refine ⟨v, ?_, hvmem, hfracv, ?_⟩
  · unfold npQuantileInvCdf
    rw [if_neg (by simp [List.isEmpty_iff, ha]), if_neg (by push_neg; exact ⟨hq0.le, hq1⟩)]
    rw [← hidef, hmax]
    rw [List.getElem?_eq_getElem hidx]
    simp [hvdef, List.get_eq_getElem]
  · intro w hw
    rw [fracLe, le_div_iff₀ hnq] at hw
    have hint : ⌈q * (a.length : ℚ)⌉ ≤ (countLe a w : ℤ) := by
      rw [Int.ceil_le]
      exact_mod_cast hw
    have hiw : i ≤ countLe a w := by omega
    by_contra hlt
    push_neg at hlt
    have hcw : countLe (sortScores a) w ≤ i - 1 :=
      countLe_le_of_lt (sortScores a) hss (i - 1) hidx w (by rwa [← hvdef])
    rw [countLe_perm hsp] at hcw
    omega

/-! Facts about the scores and the calibrate pipeline. -/

theorem nonconf_scores_length (p t : List ℚ) (hlen : p.length = t.length) :
    (nonconf_scores p t).length = p.length := by
  rw [nonconf_scores, List.length_map, List.length_zip, hlen, min_self]

theorem nonconf_scores_nonneg (p t : List ℚ) (x : ℚ) (hx : x ∈ nonconf_scores p t) :
    0 ≤ x := by
  obtain ⟨pt, hpt, hxe⟩ := List.mem_map.mp hx
  rw [← hxe]
  exact abs_nonneg _

/-- The inverted-cdf quantile only depends on the multiset of scores. -/
theorem npQuantileInvCdf_perm (a b : List ℚ) (h : a.Perm b) (q : ℚ) :
    npQuantileInvCdf a q = npQuantileInvCdf b q := by
  have hsort : sortScores a = sortScores b :=
    List.eq_of_perm_of_sorted ((sortScores_perm a).trans (h.trans (sortScores_perm b).symm))
      (sortScores_sorted a) (sortScores_sorted b)
  have hlen : a.length = b.length := h.length_eq
  have hemp : a.isEmpty = b.isEmpty := by
    rcases a with _ | ⟨x, xs⟩ <;> rcases b with _ | ⟨y, ys⟩ <;> simp_all
  unfold npQuantileInvCdf
  rw [hemp, hsort, hlen]

/-- On inputs passing the spec's validation, calibrate reduces to the quantile
of the scores at the unclipped level. -/
theorem calibrate_eq_of_valid (p t : List ℚ) (alpha : ℚ)
    (hlen : p.length = t.length) (hn : p.length ≠ 0) (h0 : 0 < alpha) (h1 : alpha < 1) :
    calibrate p t alpha =
      match npQuantileInvCdf (nonconf_scores p t) (qLevel alpha p.length) with
      | some m => .ok m
      | none => .error .ValueError := by
  unfold calibrate
  rw [if_neg (by simp [hlen]), if_neg hn,
    if_neg (by push_neg; exact ⟨h0, h1⟩)]

theorem calibrate_eval_ok (p t : List ℚ) (alpha m : ℚ)
    (hlen : p.length = t.length) (hn : p.length ≠ 0) (h0 : 0 < alpha) (h1 : alpha < 1)
    (hsome : npQuantileInvCdf (nonconf_scores p t) (qLevel alpha p.length) = some m) :
    calibrate p t alpha = .ok m := by
  rw [calibrate_eq_of_valid p t alpha hlen hn h0 h1, hsome]

theorem calibrate_eval_err (p t : List ℚ) (alpha : ℚ)
    (hlen : p.length = t.length) (hn : p.length ≠ 0) (h0 : 0 < alpha) (h1 : alpha < 1)
    (hnone : npQuantileInvCdf (nonconf_scores p t) (qLevel alpha p.length) = none) :
    calibrate p t alpha = .error .ValueError := by
  rw [calibrate_eq_of_valid p t alpha hlen hn h0 h1, hnone]

/-- Helper for evaluating the quantile on concrete inputs. -/
theorem npQuantileInvCdf_eval (a : List ℚ) (q : ℚ) (n i : ℕ) (v : ℚ)
    (hne : a ≠ []) (h0 : 0 ≤ q) (h1 : q ≤ 1)
    (hn : a.length = n) (hi : ⌈q * (n : ℚ)⌉ = (i : ℤ))
    (hv : (sortScores a)[max i 1 - 1]? = some v) :
    npQuantileInvCdf a q = some v := by
  unfold npQuantileInvCdf
  rw [if_neg (by simp [List.isEmpty_iff, hne]), if_neg (by push_neg; exact ⟨h0, h1⟩)]
  rw [hn, hi, Int.toNat_natCast]
  exact hv

/-- The quantile rejects any level above 1 (NumPy raises a ValueError). -/
theorem npQuantileInvCdf_none_of_gt_one (a : List ℚ) (q : ℚ) (hq : 1 < q) :
    npQuantileInvCdf a q = none := by
  unfold npQuantileInvCdf
  rcases a with _ | ⟨x, xs⟩
  · simp
  · rw [if_neg (by simp), if_pos (Or.inr hq)]

/-- Inversion: a successful calibration means the input passed validation and
the quantile returned the margin. -/
theorem calibrate_ok_inv (p t : List ℚ) (alpha m : ℚ) (h : calibrate p t alpha = .ok m) :
    p.length = t.length ∧ p.length ≠ 0 ∧ 0 < alpha ∧ alpha < 1 ∧
      npQuantileInvCdf (nonconf_scores p t) (qLevel alpha p.length) = some m := by
  unfold calibrate at h
  split_ifs at h with hc1 hc2 hc3
  push_neg at hc3
  refine ⟨not_not.mp hc1, hc2, hc3.1, hc3.2, ?_⟩
  cases hq : npQuantileInvCdf (nonconf_scores p t) (qLevel alpha p.length) with
  | none => rw [hq] at h; simp at h
  | some v => rw [hq] at h; simp_all

/-- A successful calibration means the level was positive and at most 1. -/
theorem calibrate_ok_level (p t : List ℚ) (alpha m : ℚ) (h : calibrate p t alpha = .ok m) :
    0 < qLevel alpha p.length ∧ qLevel alpha p.length ≤ 1 := by
  obtain ⟨hlen, hn, h0, h1, hq⟩ := calibrate_ok_inv p t alpha m h
  have hnq : (0 : ℚ) < p.length := by
    exact_mod_cast Nat.pos_of_ne_zero hn
  constructor
  · rw [qLevel]
    apply div_pos (mul_pos (by linarith) (by positivity)) hnq
  · by_contra hgt
    push_neg at hgt
    rw [npQuantileInvCdf_none_of_gt_one _ _ hgt] at hq
    simp at hq

/-- Full characterization of a successful calibration: the margin is a score,
and it is the smallest value whose empirical CDF over the scores reaches the
unclipped level. -/
theorem calibrate_ok_charac (p t : List ℚ) (alpha m : ℚ)
    (h : calibrate p t alpha = .ok m) :
    m ∈ nonconf_scores p t ∧
      qLevel alpha p.length ≤ fracLe (nonconf_scores p t) m ∧
      ∀ w, qLevel alpha p.length ≤ fracLe (nonconf_scores p t) w → m ≤ w := by
  obtain ⟨hlen, hn, h0, h1, hq⟩ := calibrate_ok_inv p t alpha m h
  obtain ⟨hl0, hl1⟩ := calibrate_ok_level p t alpha m h
  have hne : nonconf_scores p t ≠ [] := by
    have := nonconf_scores_length p t hlen
    intro hnil
    rw [hnil] at this
    simp at this
    omega
  obtain ⟨v, hv, hvmem, hvfrac, hvmin⟩ :=
    npQuantileInvCdf_charac (nonconf_scores p t) (qLevel alpha p.length) hne hl0 hl1
  rw [hq] at hv
  have hvm : m = v := by
    injection hv
  rw [hvm]
  exact ⟨hvmem, hvfrac, hvmin⟩

/-- On validated inputs with level at most 1, calibrate succeeds. -/
theorem calibrate_ok_of_level_le_one (p t : List ℚ) (alpha : ℚ)
    (hlen : p.length = t.length) (hn : p.length ≠ 0) (h0 : 0 < alpha) (h1 : alpha < 1)
    (hq1 : qLevel alpha p.length ≤ 1) :
    ∃ m, calibrate p t alpha = .ok m := by
  have hnq : (0 : ℚ) < p.length := by
    exact_mod_cast Nat.pos_of_ne_zero hn
  have hl0 : 0 < qLevel alpha p.length := by
    rw [qLevel]
    apply div_pos (mul_pos (by linarith) (by positivity)) hnq
  have hne : nonconf_scores p t ≠ [] := by
    have := nonconf_scores_length p t hlen
    intro hnil
    rw [hnil] at this
    simp at this
    omega
  obtain ⟨v, hv, -, -, -⟩ :=
    npQuantileInvCdf_charac (nonconf_scores p t) (qLevel alpha p.length) hne hl0 hq1
  exact ⟨v, calibrate_eval_ok p t alpha v hlen hn h0 h1 hv⟩

/-- The empirical CDF never exceeds 1. -/
theorem fracLe_le_one (a : List ℚ) (ha : a ≠ []) (v : ℚ) : fracLe a v ≤ 1 := by
  have hn0 : 0 < a.length := List.length_pos.mpr ha
  have hnq : (0 : ℚ) < a.length := by exact_mod_cast hn0
  rw [fracLe, div_le_one hnq]
  exact_mod_cast List.countP_le_length _

theorem nonconf_scores_ne_nil (p t : List ℚ) (hlen : p.length = t.length)
    (hn : p.length ≠ 0) : nonconf_scores p t ≠ [] := by
  have hl := nonconf_scores_length p t hlen
  intro hnil
  rw [hnil] at hl
  simp at hl
  omega

theorem calibrate_eval_ok_n (p t : List ℚ) (alpha m : ℚ) (n : ℕ)
    (hpn : p.length = n)
    (hlen : p.length = t.length) (hn : p.length ≠ 0) (h0 : 0 < alpha) (h1 : alpha < 1)
    (hsome : npQuantileInvCdf (nonconf_scores p t) (qLevel alpha n) = some m) :
    calibrate p t alpha = .ok m := by
  apply calibrate_eval_ok p t alpha m hlen hn h0 h1
  rw [hpn]
  exact hsome

theorem calibrate_eval_err_n (p t : List ℚ) (alpha : ℚ) (n : ℕ)
    (hpn : p.length = n)
    (hlen : p.length = t.length) (hn : p.length ≠ 0) (h0 : 0 < alpha) (h1 : alpha < 1)
    (hnone : npQuantileInvCdf (nonconf_scores p t) (qLevel alpha n) = none) :
    calibrate p t alpha = .error .ValueError := by
  apply calibrate_eval_err p t alpha hlen hn h0 h1
  rw [hpn]
  exact hnone

/-! Concrete runs of the pipeline, used below by examples and witnesses. -/

theorem calibrate_five_example : calibrate [5, 5] [4, 6] (1/2) = .ok 1 := by
  have hsc : nonconf_scores [5, 5] [4, 6] = [1, 1] := by
    norm_num [nonconf_scores]
  apply calibrate_eval_ok_n [5, 5] [4, 6] (1/2) 1 2 rfl rfl (by simp) (by norm_num) (by norm_num)
  rw [hsc, show qLevel (1/2) 2 = 3/4 by norm_num [qLevel]]
  apply npQuantileInvCdf_eval [1, 1] (3/4) 2 2 1 (by simp) (by norm_num) (by norm_num) rfl
  · push_cast
    rw [Int.ceil_eq_iff]; norm_num
  · rfl

theorem calibrate_zero_three_low : calibrate [0, 3] [0, 0] (1/3) = .ok 3 := by
  have hsc : nonconf_scores [0, 3] [0, 0] = [0, 3] := by
    norm_num [nonconf_scores]
  apply calibrate_eval_ok_n [0, 3] [0, 0] (1/3) 3 2 rfl rfl (by simp) (by norm_num) (by norm_num)
  rw [hsc, show qLevel (1/3) 2 = 1 by norm_num [qLevel]]
  apply npQuantileInvCdf_eval [0, 3] 1 2 2 3 (by simp) (by norm_num) le_rfl rfl
  · push_cast
    rw [Int.ceil_eq_iff]; norm_num
  · rfl

theorem calibrate_zero_three_high : calibrate [0, 3] [0, 0] (2/3) = .ok 0 := by
  have hsc : nonconf_scores [0, 3] [0, 0] = [0, 3] := by
    norm_num [nonconf_scores]
  apply calibrate_eval_ok_n [0, 3] [0, 0] (2/3) 0 2 rfl rfl (by simp) (by norm_num) (by norm_num)
  rw [hsc, show qLevel (2/3) 2 = 1/2 by norm_num [qLevel]]
  apply npQuantileInvCdf_eval [0, 3] (1/2) 2 1 0 (by simp) (by norm_num) (by norm_num) rfl
  · push_cast
    rw [Int.ceil_eq_iff]; norm_num
  · rfl

theorem calibrate_two_nine : calibrate [2, 9] [0, 0] (1/2) = .ok 9 := by
  have hsc : nonconf_scores [2, 9] [0, 0] = [2, 9] := by
    norm_num [nonconf_scores]
  apply calibrate_eval_ok_n [2, 9] [0, 0] (1/2) 9 2 rfl rfl (by simp) (by norm_num) (by norm_num)
  rw [hsc, show qLevel (1/2) 2 = 3/4 by norm_num [qLevel]]
  apply npQuantileInvCdf_eval [2, 9] (3/4) 2 2 9 (by simp) (by norm_num) (by norm_num) rfl
  · push_cast
    rw [Int.ceil_eq_iff]; norm_num
  · rfl

/-! Claim theorems. -/

/-- C1 counterexample: at alpha = 1/4 with two calibration pairs the unclipped
level is 9/8 > 1, no score has empirical CDF ≥ 9/8, and calibrate returns no
margin at all (a ValueError from np.quantile), contradicting the claim that for
every alpha in (0, 1) it returns the level-9/8 inverted-CDF quantile. -/
theorem calibrate_quantile_claim_counterexample :
    calibrate [0, 0] [0, 1] (1/4) = .error CalibError.ValueError ∧
    qLevel (1/4) 2 = 9/8 ∧
    ∀ v ∈ nonconf_scores [0, 0] [0, 1], fracLe (nonconf_scores [0, 0] [0, 1]) v < 9/8 := by
  have hsc : nonconf_scores [0, 0] [0, 1] = [0, 1] := by
    norm_num [nonconf_scores]
  have hlev : qLevel (1/4) 2 = 9/8 := by norm_num [qLevel]
  refine ⟨?_, hlev, ?_⟩
  · apply calibrate_eval_err_n [0, 0] [0, 1] (1/4) 2 rfl rfl (by simp) (by norm_num) (by norm_num)
    rw [hlev]
    exact npQuantileInvCdf_none_of_gt_one _ _ (by norm_num)
  · intro v hv
    have h1 : fracLe (nonconf_scores [0, 0] [0, 1]) v ≤ 1 :=
      fracLe_le_one _ (by rw [hsc]; simp) v
    linarith

/-- C1 (amended): for equal-length non-empty inputs and alpha in (0, 1) such
that the level (1 - alpha)(n + 1)/n is at most 1, calibrate returns the
inverted-empirical-CDF quantile of the scores r_i = |predictions[i] - targets[i]|
at that level: the smallest score v whose fraction of scores ≤ v reaches the
level, with no interpolation (the value is an actual score). -/
theorem calibrate_inverted_cdf_quantile (p t : List ℚ) (alpha : ℚ)
    (hlen : p.length = t.length) (hn : p.length ≠ 0) (h0 : 0 < alpha) (h1 : alpha < 1)
    (hq1 : qLevel alpha p.length ≤ 1) :
    ∃ m, calibrate p t alpha = .ok m ∧ m ∈ nonconf_scores p t ∧
      qLevel alpha p.length ≤ fracLe (nonconf_scores p t) m ∧
      ∀ w, qLevel alpha p.length ≤ fracLe (nonconf_scores p t) w → m ≤ w := by
  obtain ⟨m, hm⟩ := calibrate_ok_of_level_le_one p t alpha hlen hn h0 h1 hq1
  obtain ⟨hmem, hfrac, hmin⟩ := calibrate_ok_charac p t alpha m hm
  exact ⟨m, hm, hmem, hfrac, hmin⟩

/-- Witness for C1 at predictions [3, 6], targets [1, 2], alpha 1/2. -/
theorem calibrate_inverted_cdf_quantile_witness :
    ∃ m, calibrate [3, 6] [1, 2] (1/2) = .ok m ∧ m ∈ nonconf_scores [3, 6] [1, 2] ∧
      qLevel (1/2) (([3, 6] : List ℚ).length) ≤ fracLe (nonconf_scores [3, 6] [1, 2]) m ∧
      ∀ w, qLevel (1/2) (([3, 6] : List ℚ).length) ≤ fracLe (nonconf_scores [3, 6] [1, 2]) w →
        m ≤ w :=
  calibrate_inverted_cdf_quantile [3, 6] [1, 2] (1/2) rfl (by simp) (by norm_num) (by norm_num)
    (by norm_num [qLevel])

/-- C2 counterexample: at alpha = 1/10 with two calibration pairs the level
27/20 exceeds 1; the clipped level min(27/20, 1) = 1 would have produced the
margin 7, but the code passes the unclipped level and fails with a ValueError,
so the level actually used is not min((1 - alpha)(n + 1)/n, 1). -/
theorem calibrate_clipping_counterexample :
    calibrate [2, 7] [0, 0] (1/10) = .error CalibError.ValueError ∧
    min (qLevel (1/10) 2) 1 = 1 ∧
    npQuantileInvCdf (nonconf_scores [2, 7] [0, 0]) 1 = some 7 := by
  have hsc : nonconf_scores [2, 7] [0, 0] = [2, 7] := by
    norm_num [nonconf_scores]
  have hlev : qLevel (1/10) 2 = 27/20 := by norm_num [qLevel]
  refine ⟨?_, by rw [hlev]; norm_num, ?_⟩
  · apply calibrate_eval_err_n [2, 7] [0, 0] (1/10) 2 rfl rfl (by simp) (by norm_num)
      (by norm_num)
    rw [hlev]
    exact npQuantileInvCdf_none_of_gt_one _ _ (by norm_num)
  · rw [hsc]
    apply npQuantileInvCdf_eval [2, 7] 1 2 2 7 (by simp) (by norm_num) le_rfl rfl
    · push_cast
      rw [Int.ceil_eq_iff]; norm_num
    · rfl

/-- C2 (amended): the notebooks do not clip the quantile level: calibrate passes
(1 - alpha)(n + 1)/n to np.quantile unchanged, and whenever that level exceeds 1
the quantile computation receives a level above 1 and fails with a ValueError,
even though the clipped level min(level, 1) would have produced a margin. -/
theorem calibrate_level_unclipped (p t : List ℚ) (alpha : ℚ)
    (hlen : p.length = t.length) (hn : p.length ≠ 0) (h0 : 0 < alpha) (h1 : alpha < 1)
    (hgt : 1 < qLevel alpha p.length) :
    calibrate p t alpha = .error CalibError.ValueError ∧
      npQuantileInvCdf (nonconf_scores p t) (min (qLevel alpha p.length) 1) ≠ none := by
  constructor
  · exact calibrate_eval_err p t alpha hlen hn h0 h1
      (npQuantileInvCdf_none_of_gt_one _ _ hgt)
  · rw [min_eq_right hgt.le]
    obtain ⟨v, hv, -, -, -⟩ :=
      npQuantileInvCdf_charac (nonconf_scores p t) 1
        (nonconf_scores_ne_nil p t hlen hn) one_pos le_rfl
    rw [hv]
    simp

/-- Witness for C2 at predictions [1, 5], targets [0, 0], alpha 1/8. -/
theorem calibrate_level_unclipped_witness :
    calibrate [1, 5] [0, 0] (1/8) = .error CalibError.ValueError ∧
      npQuantileInvCdf (nonconf_scores [1, 5] [0, 0])
        (min (qLevel (1/8) (([1, 5] : List ℚ).length)) 1) ≠ none :=
  calibrate_level_unclipped [1, 5] [0, 0] (1/8) rfl (by simp) (by norm_num) (by norm_num)
    (by norm_num [qLevel])

/-- C3 counterexample: with equal-length non-empty inputs and alpha = 1/5 inside
(0, 1) — none of the claimed failure conditions — calibrate still fails (with a
ValueError, because the unclipped level 6/5 exceeds 1) instead of returning a
margin, refuting the claimed if-and-only-if failure characterization. -/
theorem calibrate_fails_without_invalid_conditions :
    calibrate [0, 4] [0, 0] (1/5) = .error CalibError.ValueError ∧
    (0 : ℚ) < 1/5 ∧ (1/5 : ℚ) < 1 ∧
    ([0, 4] : List ℚ).length = ([0, 0] : List ℚ).length ∧
    ([0, 4] : List ℚ).length ≠ 0 := by
  refine ⟨?_, by norm_num, by norm_num, rfl, by simp⟩
  apply calibrate_eval_err_n [0, 4] [0, 0] (1/5) 2 rfl rfl (by simp) (by norm_num) (by norm_num)
  rw [show qLevel (1/5) 2 = 6/5 by norm_num [qLevel]]
  exact npQuantileInvCdf_none_of_gt_one _ _ (by norm_num)

/-- C3 (amended): calibrate fails with InvalidInput exactly when the lengths
differ, n = 0, or alpha lies outside (0, 1); on the remaining inputs it returns
a margin exactly when the level (1 - alpha)(n + 1)/n is at most 1, and otherwise
fails with a ValueError from the quantile computation rather than returning a
number. -/
theorem calibrate_failure_characterization (p t : List ℚ) (alpha : ℚ) :
    (calibrate p t alpha = .error CalibError.InvalidInput ↔
      p.length ≠ t.length ∨ p.length = 0 ∨ alpha ≤ 0 ∨ 1 ≤ alpha) ∧
    (p.length = t.length → p.length ≠ 0 → 0 < alpha → alpha < 1 →
      ((∃ m, calibrate p t alpha = .ok m) ↔ qLevel alpha p.length ≤ 1)) := by
  constructor
  · constructor
    · intro h
      by_contra hc
      push_neg at hc
      obtain ⟨h1, h2, h3, h4⟩ := hc
      rw [calibrate_eq_of_valid p t alpha h1 h2 h3 h4] at h
      cases hq : npQuantileInvCdf (nonconf_scores p t) (qLevel alpha p.length) <;>
        rw [hq] at h <;> simp at h
    · intro h
      unfold calibrate
      split_ifs with hc1 hc2 hc3
      · rfl
      · rfl
      · rfl
      · exfalso
        push_neg at hc3
        rcases h with h | h | h | h
        · exact hc1 h
        · exact hc2 h
        · linarith [hc3.1]
        · linarith [hc3.2]
  · intro hlen hn h0 h1
    constructor
    · rintro ⟨m, hm⟩
      exact (calibrate_ok_level p t alpha m hm).2
    · intro hq1
      exact calibrate_ok_of_level_le_one p t alpha hlen hn h0 h1 hq1

/-- Witness for C3: alpha = 0 is rejected with InvalidInput. -/
theorem calibrate_failure_characterization_witness :
    calibrate [1] [2] 0 = .error CalibError.InvalidInput :=
  ((calibrate_failure_characterization [1] [2] 0).1).mpr
    (Or.inr (Or.inr (Or.inl le_rfl)))

/-- C4: build_interval returns exactly (p - m, p + m), element-wise in the
batched case; the output has the same length as the input predictions; and for
a non-negative margin every returned pair satisfies lower ≤ upper. -/
theorem build_interval_correct (ps : List ℚ) (x m : ℚ) (hm : 0 ≤ m) :
    build_interval x m = (x - m, x + m) ∧
    build_interval_batch ps m = ps.map (fun y => (y - m, y + m)) ∧
    (build_interval_batch ps m).length = ps.length ∧
    (build_interval x m).1 ≤ (build_interval x m).2 ∧
    ∀ pr ∈ build_interval_batch ps m, pr.1 ≤ pr.2 := by
  refine ⟨rfl, rfl, ?_, ?_, ?_⟩
  · rw [build_interval_batch, List.length_map]
  · rw [build_interval]
    dsimp
    linarith
  · intro pr hpr
    obtain ⟨y, hy, hye⟩ := List.mem_map.mp hpr
    rw [← hye, build_interval]
    dsimp
    linarith

/-- Witness for C4 at point predictions [1, 3], scalar prediction 2, margin 1. -/
theorem build_interval_correct_witness :
    build_interval 2 1 = (2 - 1, 2 + 1) ∧
    build_interval_batch [1, 3] 1 = ([1, 3] : List ℚ).map (fun y => (y - 1, y + 1)) ∧
    (build_interval_batch [1, 3] 1).length = ([1, 3] : List ℚ).length ∧
    (build_interval 2 1).1 ≤ (build_interval 2 1).2 ∧
    ∀ pr ∈ build_interval_batch [1, 3] 1, pr.1 ≤ pr.2 :=
  build_interval_correct [1, 3] 2 1 (by norm_num)

/-- C5: any margin returned by calibrate is non-negative, being one of the
absolute-deviation nonconformity scores. -/
theorem calibrate_margin_nonneg (p t : List ℚ) (alpha m : ℚ)
    (h : calibrate p t alpha = .ok m) : 0 ≤ m :=
  nonconf_scores_nonneg p t m (calibrate_ok_charac p t alpha m h).1

/-- Witness for C5 at predictions [5, 5], targets [4, 6], alpha 1/2. -/
theorem calibrate_margin_nonneg_witness : (0 : ℚ) ≤ 1 :=
  calibrate_margin_nonneg [5, 5] [4, 6] (1/2) 1 calibrate_five_example

/-- C6: for a fixed calibration set, whenever calibrate returns margins at two
risk levels alpha1 ≤ alpha2, the margin at alpha2 is at most the margin at
alpha1: increasing alpha never increases the margin. -/
theorem calibrate_margin_antitone (p t : List ℚ) (a1 a2 m1 m2 : ℚ)
    (h12 : a1 ≤ a2)
    (h1 : calibrate p t a1 = .ok m1) (h2 : calibrate p t a2 = .ok m2) :
    m2 ≤ m1 := by
  obtain ⟨hlen, hn, ha0, ha1, -⟩ := calibrate_ok_inv p t a1 m1 h1
  obtain ⟨-, hfrac1, -⟩ := calibrate_ok_charac p t a1 m1 h1
  obtain ⟨-, -, hmin2⟩ := calibrate_ok_charac p t a2 m2 h2
  apply hmin2 m1
  have hnq : (0 : ℚ) < p.length := by
    exact_mod_cast Nat.pos_of_ne_zero hn
  have hmul : (1 - a2) * ((p.length : ℚ) + 1) ≤ (1 - a1) * ((p.length : ℚ) + 1) :=
    mul_le_mul_of_nonneg_right (by linarith) (by positivity)
  have hlev : qLevel a2 p.length ≤ qLevel a1 p.length := by
    rw [qLevel, qLevel]
    exact div_le_div_of_nonneg_right hmul hnq.le
  exact le_trans hlev hfrac1

/-- Witness for C6 at scores [0, 3] with alpha1 = 1/3 (margin 3) and
alpha2 = 2/3 (margin 0). -/
theorem calibrate_margin_antitone_witness : (0 : ℚ) ≤ 3 :=
  calibrate_margin_antitone [0, 3] [0, 0] (1/3) (2/3) 3 0 (by norm_num)
    calibrate_zero_three_low calibrate_zero_three_high

/-- C7: on the score set [1, ..., 10] (here realized as predictions [1, ..., 10]
against zero targets) with alpha = 1/10, calibrate computes level 99/100 and
returns margin 10, which is the maximum score. -/
theorem calibrate_example_one_to_ten :
    calibrate [1, 2, 3, 4, 5, 6, 7, 8, 9, 10] [0, 0, 0, 0, 0, 0, 0, 0, 0, 0] (1/10) =
      .ok 10 ∧
    qLevel (1/10) 10 = 99/100 ∧
    nonconf_scores [1, 2, 3, 4, 5, 6, 7, 8, 9, 10] [0, 0, 0, 0, 0, 0, 0, 0, 0, 0] =
      [1, 2, 3, 4, 5, 6, 7, 8, 9, 10] ∧
    (10 : ℚ) ∈ nonconf_scores [1, 2, 3, 4, 5, 6, 7, 8, 9, 10]
      [0, 0, 0, 0, 0, 0, 0, 0, 0, 0] ∧
    ∀ x ∈ nonconf_scores [1, 2, 3, 4, 5, 6, 7, 8, 9, 10] [0, 0, 0, 0, 0, 0, 0, 0, 0, 0],
      x ≤ 10 := by
  have hsc : nonconf_scores [1, 2, 3, 4, 5, 6, 7, 8, 9, 10] [0, 0, 0, 0, 0, 0, 0, 0, 0, 0] =
      [1, 2, 3, 4, 5, 6, 7, 8, 9, 10] := by
    norm_num [nonconf_scores]
  have hlev : qLevel (1/10) 10 = 99/100 := by norm_num [qLevel]
  refine ⟨?_, hlev, hsc, by rw [hsc]; norm_num, ?_⟩
  · apply calibrate_eval_ok_n [1, 2, 3, 4, 5, 6, 7, 8, 9, 10] [0, 0, 0, 0, 0, 0, 0, 0, 0, 0]
      (1/10) 10 10 rfl rfl (by simp) (by norm_num) (by norm_num)
    rw [hsc, hlev]
    apply npQuantileInvCdf_eval [1, 2, 3, 4, 5, 6, 7, 8, 9, 10] (99/100) 10 10 10 (by simp)
      (by norm_num) (by norm_num) rfl
    · push_cast
      rw [Int.ceil_eq_iff]; norm_num
    · rfl
  · intro x hx
    rw [hsc] at hx
    fin_cases hx <;> norm_num

/-- C8: predictions [5, 5], targets [4, 6], alpha = 1/2 give scores [1, 1],
level 3/4, margin 1, and the interval around a new point prediction 5 is
(4, 6). -/
theorem calibrate_example_symmetric_pair :
    nonconf_scores [5, 5] [4, 6] = [1, 1] ∧
    qLevel (1/2) 2 = 3/4 ∧
    calibrate [5, 5] [4, 6] (1/2) = .ok 1 ∧
    build_interval 5 1 = (4, 6) := by
  refine ⟨?_, ?_, calibrate_five_example, ?_⟩
  · norm_num [nonconf_scores]
  · norm_num [qLevel]
  · norm_num [build_interval]

/-- C9: any margin returned by calibrate is one of the nonconformity scores
themselves — an order statistic, never an interpolated value. -/
theorem calibrate_margin_is_order_statistic (p t : List ℚ) (alpha m : ℚ)
    (h : calibrate p t alpha = .ok m) : m ∈ nonconf_scores p t :=
  (calibrate_ok_charac p t alpha m h).1

/-- Witness for C9 at predictions [2, 9], targets [0, 0], alpha 1/2. -/
theorem calibrate_margin_is_order_statistic_witness :
    (9 : ℚ) ∈ nonconf_scores [2, 9] [0, 0] :=
  calibrate_margin_is_order_statistic [2, 9] [0, 0] (1/2) 9 calibrate_two_nine

/-- C10: calibrate is invariant under any permutation of the (prediction,
target) pairs of the calibration set. -/
theorem calibrate_perm_invariant (p t p2 t2 : List ℚ) (alpha : ℚ)
    (hlen : p.length = t.length) (hlen2 : p2.length = t2.length)
    (hperm : (p.zip t).Perm (p2.zip t2)) :
    calibrate p t alpha = calibrate p2 t2 alpha := by
  have hplen : p.length = p2.length := by
    have hzl := hperm.length_eq
    rw [List.length_zip, List.length_zip] at hzl
    omega
  have hsperm : (nonconf_scores p t).Perm (nonconf_scores p2 t2) := hperm.map _
  have hnp := npQuantileInvCdf_perm _ _ hsperm (qLevel alpha p2.length)
  unfold calibrate
  rw [← hlen, ← hlen2, hplen, hnp]

/-- Witness for C10: swapping the two calibration pairs leaves the result
unchanged. -/
theorem calibrate_perm_invariant_witness :
    calibrate [1, 2] [3, 4] (1/2) = calibrate [2, 1] [4, 3] (1/2) :=
  calibrate_perm_invariant [1, 2] [3, 4] [2, 1] [4, 3] (1/2) rfl rfl
    (List.Perm.swap ((2 : ℚ), (4 : ℚ)) ((1 : ℚ), (3 : ℚ)) [])
